import Mathlib

/-!
Verification development for the auction-sheet structure-recovery engine
(`backend/services/parser.py`).  The Python source is shallowly embedded:
each Python helper becomes an executable Lean definition of the same name,
strings are `List Char`-backed Lean `String`s, `None`-able results are
`Option`s, and the regular expressions of the source are hand-translated
into character-level scanners with Python's leftmost / greedy-with-
backtracking semantics.  External library behaviour (`unicodedata.normalize
"NFKC"`, Python `str` methods, `datetime.date` validity) is modelled
explicitly, restricted to the character repertoire this code base works
with; each such model carries a comment saying what it models.
-/

namespace AuctionParser

/-! ### Python string primitives -/

/-- Model of Python `str.isspace` / regex `\s` (Unicode whitespace),
restricted to the whitespace characters that can occur in this code base:
ASCII control whitespace, NBSP, the Unicode space block, line/paragraph
separators and the ideographic space U+3000. -/
def pyIsSpace (c : Char) : Bool :=
  (9 ≤ c.toNat && c.toNat ≤ 13) || (28 ≤ c.toNat && c.toNat ≤ 32) ||
  c.toNat = 0x85 || c.toNat = 0xA0 || c.toNat = 0x1680 ||
  (0x2000 ≤ c.toNat && c.toNat ≤ 0x200A) || c.toNat = 0x2028 ||
  c.toNat = 0x2029 || c.toNat = 0x202F || c.toNat = 0x205F || c.toNat = 0x3000

/-- Strip of leading and trailing whitespace on the character list level,
modelling Python `str.strip()`. -/
def pyStripList (l : List Char) : List Char :=
  ((l.dropWhile pyIsSpace).reverse.dropWhile pyIsSpace).reverse

/-- Python `str.strip()`. -/
def pyStrip (s : String) : String := String.mk (pyStripList s.toList)

/-- ASCII lower-casing, modelling Python `str.lower()` on the ASCII
range (the only range the source applies it to: filenames and the
"KEY" token). -/
def asciiLowerChar (c : Char) : Char :=
  if 'A' ≤ c && c ≤ 'Z' then Char.ofNat (c.toNat + 32) else c

def asciiLower (s : String) : String := String.mk (s.toList.map asciiLowerChar)

/-- Containment of `needle` as a contiguous sublist of `hay`. -/
def listContainsSub (needle : List Char) : List Char → Bool
  | [] => needle.isEmpty
  | c :: rest => needle.isPrefixOf (c :: rest) || listContainsSub needle rest

/-- Substring containment, Python `needle in hay`. -/
def strContains (hay needle : String) : Bool :=
  listContainsSub needle.toList hay.toList

/-- Python `str.startswith`. -/
def strStartsWith (s pre : String) : Bool := pre.toList.isPrefixOf s.toList

/-- Python `str.endswith`. -/
def strEndsWith (s suf : String) : Bool := suf.toList.isSuffixOf s.toList

/-- Remove every (non-overlapping, leftmost-first) occurrence of `pat`
from `l`; fuel-driven so that it is structurally recursive.  Model of
Python `s.replace(pat, "")` for a non-empty `pat`. -/
def removeAllSubFuel (pat : List Char) : Nat → List Char → List Char
  | 0, l => l
  | _ + 1, [] => []
  | fuel + 1, c :: rest =>
    if pat.isPrefixOf (c :: rest) then
      removeAllSubFuel pat fuel (rest.drop (pat.length - 1))
    else
      c :: removeAllSubFuel pat fuel rest

/-- Python `s.replace(pat, "")`. -/
def removeAllSub (s pat : String) : String :=
  String.mk (removeAllSubFuel pat.toList s.toList.length s.toList)

/-- Keep every character except `c0`, Python `s.replace(c0, "")` for a
single-character pattern. -/
def removeChar (s : String) (c0 : Char) : String :=
  String.mk (s.toList.filter (fun c => c ≠ c0))

/-! ### Model of `unicodedata.normalize("NFKC", ·)`

The source normalizes cell text with NFKC before comparing it.  Full NFKC
is modelled here restricted to the repertoire the parser meets: half-width
katakana (including voicing-mark composition), full-width ASCII forms and
the ideographic space fold to their canonical counterparts; every other
character of the documents (NFC Japanese text, ASCII) is NFKC-stable and
is mapped to itself. -/

/-- Single-character compatibility fold: half-width katakana to full-width,
full-width ASCII forms to ASCII, ideographic space to space, half-width
voicing marks to the combining marks U+3099/U+309A. -/
def nfkcChar (c : Char) : Char :=
  let n := c.toNat
  if 0xFF01 ≤ n && n ≤ 0xFF5E then Char.ofNat (n - 0xFEE0)
  else if n = 0x3000 then ' '
  else match c with
  | '｡' => '。' | '｢' => '「' | '｣' => '」' | '､' => '、' | '･' => '・'
  | 'ｦ' => 'ヲ' | 'ｧ' => 'ァ' | 'ｨ' => 'ィ' | 'ｩ' => 'ゥ' | 'ｪ' => 'ェ'
  | 'ｫ' => 'ォ' | 'ｬ' => 'ャ' | 'ｭ' => 'ュ' | 'ｮ' => 'ョ' | 'ｯ' => 'ッ'
  | 'ｰ' => 'ー' | 'ｱ' => 'ア' | 'ｲ' => 'イ' | 'ｳ' => 'ウ' | 'ｴ' => 'エ'
  | 'ｵ' => 'オ' | 'ｶ' => 'カ' | 'ｷ' => 'キ' | 'ｸ' => 'ク' | 'ｹ' => 'ケ'
  | 'ｺ' => 'コ' | 'ｻ' => 'サ' | 'ｼ' => 'シ' | 'ｽ' => 'ス' | 'ｾ' => 'セ'
  | 'ｿ' => 'ソ' | 'ﾀ' => 'タ' | 'ﾁ' => 'チ' | 'ﾂ' => 'ツ' | 'ﾃ' => 'テ'
  | 'ﾄ' => 'ト' | 'ﾅ' => 'ナ' | 'ﾆ' => 'ニ' | 'ﾇ' => 'ヌ' | 'ﾈ' => 'ネ'
  | 'ﾉ' => 'ノ' | 'ﾊ' => 'ハ' | 'ﾋ' => 'ヒ' | 'ﾌ' => 'フ' | 'ﾍ' => 'ヘ'
  | 'ﾎ' => 'ホ' | 'ﾏ' => 'マ' | 'ﾐ' => 'ミ' | 'ﾑ' => 'ム' | 'ﾒ' => 'メ'
  | 'ﾓ' => 'モ' | 'ﾔ' => 'ヤ' | 'ﾕ' => 'ユ' | 'ﾖ' => 'ヨ' | 'ﾗ' => 'ラ'
  | 'ﾘ' => 'リ' | 'ﾙ' => 'ル' | 'ﾚ' => 'レ' | 'ﾛ' => 'ロ' | 'ﾜ' => 'ワ'
  | 'ﾝ' => 'ン' | 'ﾞ' => '゙' | 'ﾟ' => '゚'
  | _ => c

/-- Canonical composition of a katakana base with a combining voiced /
semi-voiced sound mark, as NFC performs after the compatibility fold. -/
def composeVoiced (base : Char) : Option Char :=
  match base with
  | 'ウ' => some 'ヴ'
  | 'カ' => some 'ガ' | 'キ' => some 'ギ' | 'ク' => some 'グ'
  | 'ケ' => some 'ゲ' | 'コ' => some 'ゴ'
  | 'サ' => some 'ザ' | 'シ' => some 'ジ' | 'ス' => some 'ズ'
  | 'セ' => some 'ゼ' | 'ソ' => some 'ゾ'
  | 'タ' => some 'ダ' | 'チ' => some 'ヂ' | 'ツ' => some 'ヅ'
  | 'テ' => some 'デ' | 'ト' => some 'ド'
  | 'ハ' => some 'バ' | 'ヒ' => some 'ビ' | 'フ' => some 'ブ'
  | 'ヘ' => some 'ベ' | 'ホ' => some 'ボ'
  | 'ワ' => some 'ヷ' | 'ヲ' => some 'ヺ'
  | _ => none

def composeSemivoiced (base : Char) : Option Char :=
  match base with
  | 'ハ' => some 'パ' | 'ヒ' => some 'ピ' | 'フ' => some 'プ'
  | 'ヘ' => some 'ペ' | 'ホ' => some 'ポ'
  | _ => none

def kanaCompose (base mark : Char) : Option Char :=
  if mark = '゙' then composeVoiced base
  else if mark = '゚' then composeSemivoiced base
  else none

/-- NFKC on a character list: compatibility-fold each character and
compose a folded base with a following voicing mark when a canonical
composition exists. -/
def nfkcList : List Char → List Char
  | [] => []
  | [c] => [nfkcChar c]
  | c :: v :: rest =>
    let fc := nfkcChar c
    let fv := nfkcChar v
    match kanaCompose fc fv with
    | some comp => comp :: nfkcList rest
    | none => fc :: nfkcList (v :: rest)

/-- Model of `unicodedata.normalize("NFKC", s)`. -/
def nfkcStr (s : String) : String := String.mk (nfkcList s.toList)

/-! ### Width normalization and numeric coercions (`parser.py` lines 46-95) -/

/-- The `ZEN2HAN` translation table (`str.maketrans`): full-width digits
and four punctuation characters to half-width. -/
def ZEN2HAN : List (Char × Char) :=
  [ ('０', '0'), ('１', '1'), ('２', '2'), ('３', '3'), ('４', '4'),
    ('５', '5'), ('６', '6'), ('７', '7'), ('８', '8'), ('９', '9'),
    ('－', '-'), ('，', ','), ('．', '.'), ('／', '/') ]

/-- Application of the `ZEN2HAN` table to one character (characters
outside the table pass through, as `str.translate` does). -/
def zen2hanChar (c : Char) : Char :=
  ((ZEN2HAN.find? (fun p => p.1 == c)).map Prod.snd).getD c

/-- `z2h(s)`: translate through `ZEN2HAN` then strip surrounding
whitespace.  A `None` argument is modelled as `""`. -/
def z2h (s : String) : String :=
  String.mk (pyStripList (s.toList.map zen2hanChar))

/-- ASCII decimal digit (regex `\d`; after `z2h` every decimal digit the
parser meets is ASCII). -/
def isAsciiDigit (c : Char) : Bool := '0' ≤ c && c ≤ '9'

/-- Value of a non-empty ASCII digit string. -/
def digitsToNat (l : List Char) : Nat :=
  l.foldl (fun acc c => acc * 10 + (c.toNat - '0'.toNat)) 0

/-- Model of Python `int(s)` on a string made only of digits and `-`:
an optional single leading minus sign followed by at least one digit;
anything else raises and is modelled as `none`. -/
def pyIntParse (l : List Char) : Option Int :=
  match l with
  | '-' :: ds =>
    if ds ≠ [] && ds.all isAsciiDigit then some (-(digitsToNat ds : Int)) else none
  | ds =>
    if ds ≠ [] && ds.all isAsciiDigit then some (digitsToNat ds : Int) else none

/-- `to_int_or_none(s)`: width-fold, keep only digits and minus signs,
refuse `""`, `"-"`, `"--"`, then parse as a Python int. -/
def to_int_or_none (s : String) : Option Int :=
  let s2 := (z2h s).toList.filter (fun c => isAsciiDigit c || c = '-')
  if s2 = [] || s2 = ['-'] || s2 = ['-', '-'] then none
  else pyIntParse s2

/-- First run of one to nine consecutive digits in `l` (the regex
`(\d{1,9})` under leftmost-then-greedy search; the optional `km` suffix
of the source pattern does not constrain the captured group). -/
def firstDigitRun9 : List Char → Option (List Char)
  | [] => none
  | c :: rest =>
    if isAsciiDigit c then some ((c :: rest).takeWhile isAsciiDigit |>.take 9)
    else firstDigitRun9 rest

/-- `parse_mileage_km(s)`: width-fold, drop commas, take the first run of
up to nine digits; fall back to `to_int_or_none` when no digit occurs. -/
def parse_mileage_km (s : String) : Option Int :=
  if s = "" then none
  else
    let s2 := removeChar (z2h s) ','
    match firstDigitRun9 s2.toList with
    | some run => some (digitsToNat run : Int)
    | none => to_int_or_none s2

/-! ### Dates (`parse_auction_date`, lines 70-95) -/

/-- A calendar date as produced by Python `datetime.date`. -/
structure PDate where
  year : Nat
  month : Nat
  day : Nat
deriving DecidableEq, Repr

/-- Gregorian leap year, as `datetime` uses. -/
def isLeapYear (y : Nat) : Bool :=
  (y % 4 = 0 && y % 100 ≠ 0) || y % 400 = 0

def daysInMonth (y m : Nat) : Nat :=
  if m = 2 then (if isLeapYear y then 29 else 28)
  else if m = 4 || m = 6 || m = 9 || m = 11 then 30
  else 31

/-- Model of the `datetime.date` constructor: `some` for a valid
(year, month, day), `none` when Python would raise `ValueError`. -/
def mkValidDate (y m d : Nat) : Option PDate :=
  if 1 ≤ y && y ≤ 9999 && 1 ≤ m && m ≤ 12 && 1 ≤ d && d ≤ daysInMonth y m then
    some ⟨y, m, d⟩
  else none

/-- Greedy 1-2 digit group followed by a separator from `seps`, with the
backtracking of `(\d{1,2})` before a required character class: try two
digits, else one.  Returns the group value and the input after the
separator. -/
def digits12ThenSep (seps : List Char) : List Char → Option (Nat × List Char)
  | d1 :: d2 :: s :: rest =>
    if isAsciiDigit d1 && isAsciiDigit d2 && seps.contains s then
      some (digitsToNat [d1, d2], rest)
    else if isAsciiDigit d1 && seps.contains d2 then
      some (digitsToNat [d1], s :: rest)
    else none
  | [d1, d2] =>
    if isAsciiDigit d1 && seps.contains d2 then some (digitsToNat [d1], [])
    else none
  | _ => none

/-- Greedy trailing 1-2 digit group (no following constraint). -/
def digits12Greedy : List Char → Option Nat
  | d1 :: d2 :: _ =>
    if isAsciiDigit d1 && isAsciiDigit d2 then some (digitsToNat [d1, d2])
    else if isAsciiDigit d1 then some (digitsToNat [d1])
    else none
  | [d1] => if isAsciiDigit d1 then some (digitsToNat [d1]) else none
  | [] => none

/-- Attempt of the ISO-like pattern anchored at the head of the list:
literal `20`, two digits, a slash-or-hyphen separator, a 1-2 digit month,
the same separator class, a 1-2 digit day. -/
def isoDateAt (l : List Char) : Option (Nat × Nat × Nat) :=
  match l with
  | '2' :: '0' :: d3 :: d4 :: s :: rest =>
    if isAsciiDigit d3 && isAsciiDigit d4 && (s = '/' || s = '-') then
      match digits12ThenSep ['/', '-'] rest with
      | some (mo, rest2) =>
        match digits12Greedy rest2 with
        | some d => some (digitsToNat ['2', '0', d3, d4], mo, d)
        | none => none
      | none => none
    else none
  | _ => none

/-- Leftmost match of the ISO-like pattern. -/
def isoDateScan : List Char → Option (Nat × Nat × Nat)
  | [] => none
  | c :: rest =>
    match isoDateAt (c :: rest) with
    | some r => some r
    | none => isoDateScan rest

/-- Attempt of an era pattern `[markers][\s]*(\d{1,2})[./年](\d{1,2})`
anchored at the head of the list; returns (era-year, month). -/
def eraDateAt (markers : List Char) (l : List Char) : Option (Nat × Nat) :=
  match l with
  | c :: rest =>
    if markers.contains c then
      let rest2 := rest.dropWhile pyIsSpace
      match digits12ThenSep ['.', '/', '年'] rest2 with
      | some (ey, rest3) =>
        match digits12Greedy rest3 with
        | some mo => some (ey, mo)
        | none => none
      | none => none
    else none
  | [] => none

/-- Leftmost match of an era pattern. -/
def eraDateScan (markers : List Char) : List Char → Option (Nat × Nat)
  | [] => none
  | c :: rest =>
    match eraDateAt markers (c :: rest) with
    | some r => some r
    | none => eraDateScan markers rest

/-- `parse_auction_date(text)`: width-fold, then try the ISO-like pattern,
the Reiwa pattern (base 2018) and the Heisei pattern (base 1988) in turn.
A pattern that matches but yields an invalid calendar date falls through
to the next pattern, as the `try/except ... pass` of the source does. -/
def parse_auction_date (text : String) : Option PDate :=
  let t := (z2h text).toList
  let iso :=
    match isoDateScan t with
    | some (y, mo, d) => mkValidDate y mo d
    | none => none
  match iso with
  | some dt => some dt
  | none =>
    let reiwa :=
      match eraDateScan ['R', 'r', '令'] t with
      | some (ey, mo) => mkValidDate (2018 + ey) mo 1
      | none => none
    match reiwa with
    | some dt => some dt
    | none =>
      match eraDateScan ['H', 'h', '平', '成'] t with
      | some (ey, mo) => mkValidDate (1988 + ey) mo 1
      | none => none

/-! ### Japanese text normalization helpers (lines 97-113) -/

/-- The `_DAKUTEN_BASE` translation table: voiced / semi-voiced katakana
to their unvoiced bases. -/
def devoiceChar (c : Char) : Char :=
  match c with
  | 'ガ' => 'カ' | 'ギ' => 'キ' | 'グ' => 'ク' | 'ゲ' => 'ケ' | 'ゴ' => 'コ'
  | 'ザ' => 'サ' | 'ジ' => 'シ' | 'ズ' => 'ス' | 'ゼ' => 'セ' | 'ゾ' => 'ソ'
  | 'ダ' => 'タ' | 'ヂ' => 'チ' | 'ヅ' => 'ツ' | 'デ' => 'テ' | 'ド' => 'ト'
  | 'バ' => 'ハ' | 'ビ' => 'ヒ' | 'ブ' => 'フ' | 'ベ' => 'ヘ' | 'ボ' => 'ホ'
  | 'ヴ' => 'ウ'
  | 'パ' => 'ハ' | 'ピ' => 'ヒ' | 'プ' => 'フ' | 'ペ' => 'ヘ' | 'ポ' => 'ホ'
  | _ => c

/-- `_devoice_katakana(s)`. -/
def _devoice_katakana (s : String) : String :=
  String.mk (s.toList.map devoiceChar)

/-- `_norm_jp(s)`: NFKC, remove all whitespace, unify prolonged-sound /
middle-dot variants. -/
def _norm_jp (s : String) : String :=
  let t := (nfkcStr s).toList.filter (fun c => !pyIsSpace c)
  String.mk (t.map (fun c =>
    if c = 'ｰ' then 'ー' else if c = '･' then '・'
    else if c = '‐' then 'ー' else if c = '―' then 'ー' else c))

/-- Label alternatives of the leading lot-number pattern, tried in the
alternation order of the source regex; each returns the input after the
label when the label shape matches. -/
def lotLabelAfter (l : List Char) : List (List Char) :=
  let cands : List (Option (List Char)) :=
    [ -- 出品\s*No\.?\s*
      (if strStartsWith (String.mk l) "出品" then
        let r1 := (l.drop 2).dropWhile pyIsSpace
        if ['N', 'o'].isPrefixOf r1 then
          let r2 := r1.drop 2
          let r3 := if r2.head? = some '.' then r2.drop 1 else r2
          some (r3.dropWhile pyIsSpace)
        else none
      else none),
      -- No\.?\s*
      (if ['N', 'o'].isPrefixOf l then
        let r2 := l.drop 2
        let r3 := if r2.head? = some '.' then r2.drop 1 else r2
        some (r3.dropWhile pyIsSpace)
      else none),
      (if l.head? = some '#' then some (l.drop 1) else none),
      (if l.head? = some '＃' then some (l.drop 1) else none),
      (if l.head? = some '№' then some (l.drop 1) else none),
      some l]
  cands.filterMap id

/-- Consume a run of three to seven digits (greedy, capped at seven) after
optional whitespace; `some` leaves the unconsumed tail. -/
def lotDigitsAfter (l : List Char) : Option (List Char) :=
  let m := l.dropWhile pyIsSpace
  let k := (m.takeWhile isAsciiDigit).length
  if 3 ≤ k then some (m.drop (min k 7)) else none

/-- `_strip_leading_lot_tokens(text)`: remove one leading lot-number token
(an optional label followed by a 3-7 digit run) anchored at the start,
then strip.  Alternatives are tried in the order of the source regex and
the whole substitution is a no-op when no alternative completes. -/
def _strip_leading_lot_tokens (text : String) : String :=
  let l := text.toList
  let l1 := l.dropWhile pyIsSpace
  match (lotLabelAfter l1).findSome? lotDigitsAfter with
  | some rest => String.mk (pyStripList rest)
  | none => String.mk (pyStripList l)

/-! ### Header configuration (lines 115-151) -/

/-- The sixteen canonical field keys of `HEADER_ALIASES`. -/
inductive FieldKey where
  | auction_no | maker | car_name | grade | model_code | year
  | mileage_km | color | shift | inspection_until | score
  | start_price_yen | displacement_cc | aircon | equipment | lane
deriving DecidableEq, Repr

/-- `HEADER_ALIASES`, in the insertion order of the source dict. -/
def HEADER_ALIASES : List (FieldKey × List String) :=
  [ (.auction_no, ["出品番号", "番号", "Lot", "LOT", "ロット", "車番", "出品No", "出品No."]),
    (.maker, ["メーカー", "メーカー名", "Maker", "Make", "ﾒｰｶｰ"]),
    (.car_name, ["車名", "車種", "車両名", "Model", "車型"]),
    (.grade, ["グレード", "仕様", "Grade"]),
    (.model_code, ["型式", "型式/類別", "型式類別", "Type"]),
    (.year, ["年式", "初度登録", "初年度", "年式(初度)"]),
    (.mileage_km, ["走行距離", "距離", "走行", "走行(km)"]),
    (.color, ["色", "カラー", "Color"]),
    (.shift, ["ミッション", "AT/MT", "シフト", "変速"]),
    (.inspection_until, ["車検", "車検有効", "車検満了", "検切れ"]),
    (.score, ["評価", "評価点", "点数"]),
    (.start_price_yen, ["スタート", "開始価格", "最低価格", "Start"]),
    (.displacement_cc, ["排気量", "cc", "エンジン"]),
    (.aircon, ["ｴｱｺﾝ", "エアコン", "A/C"]),
    (.equipment, ["装備", "オプション"]),
    (.lane, ["レーン", "ﾚｰﾝ", "Lane"]) ]

/-- `KNOWN_MAKERS`. -/
def KNOWN_MAKERS : List String :=
  [ "トヨタ", "ホンダ", "日産", "スズキ", "スバル", "ダイハツ", "マツダ", "三菱",
    "レクサス", "いすゞ", "日野", "三菱ふそう", "メルセデス・ベンツ", "BMW",
    "アウディ", "フォルクスワーゲン", "ボルボ", "プジョー", "シトロエン",
    "ルノー", "ジープ", "フィアット", "アルファロメオ", "ポルシェ", "ミニ",
    "ランドローバー", "ジャガー", "キャデラック", "シボレー", "フォード", "テスラ" ]

/-- `MAKER_FRAGMENT_RULES`. -/
def MAKER_FRAGMENT_RULES : List ((String × String) × String) :=
  [ (("トヨ", "タ"), "トヨタ"),
    (("ホン", "ダ"), "ホンダ"),
    (("スバ", "ル"), "スバル"),
    (("ダイ", "ハツ"), "ダイハツ"),
    (("マツ", "ダ"), "マツダ"),
    (("スズ", "キ"), "スズキ") ]

/-- `_KNOWN_MAKERS_NORM`: NFKC-normalized maker keyed to its original
spelling, in dict insertion order (all normalized keys are distinct, so
the dict comprehension is order- and value-faithful to this list). -/
def _KNOWN_MAKERS_NORM : List (String × String) :=
  KNOWN_MAKERS.map (fun mk => (nfkcStr mk, mk))

/-! ### Noise stripping (lines 34-43) -/

/-- Token alternatives of `NOISE_REGEX`. -/
def noiseTokens : List String := ["ｷｰ", "ｷ", "キー", "key", "Key", "KEY"]

/-- `NOISE_REGEX.match(sz)`: optional whitespace, one noise token, then
only whitespace to the end. -/
def noiseMatch (sz : String) : Bool :=
  let t := sz.toList.dropWhile pyIsSpace
  noiseTokens.any (fun tok =>
    tok.toList.isPrefixOf t && (t.drop tok.toList.length).all pyIsSpace)

/-- `_strip_noise_cell(cell)`: strip, blank the cell when its width-folded
form is a noise ("key") token. -/
def _strip_noise_cell (cell : String) : String :=
  let s := pyStrip cell
  if noiseMatch (z2h s) then "" else s

/-- `_strip_noise_row(row)`. -/
def _strip_noise_row (row : List String) : List String :=
  row.map _strip_noise_cell

/-! ### Header resolution (lines 223-238) -/

/-- `header_match_score(cell, target_list)`: 1 when some alias is a
substring of the width-folded cell, else 0. -/
def header_match_score (cell : String) (target_list : List String) : Nat :=
  if target_list.any (fun al => strContains (z2h cell) al) then 1 else 0

/-- Per-cell winner of `normalize_header_row`: the first field key (in
dict order) whose alias list scores 1 on the cell; `best_score` starts at
0 and scores are 0 / 1, so the first key with a positive score wins. -/
def bestKeyForCell (cell : String) : Option FieldKey :=
  (HEADER_ALIASES.find? (fun kv => header_match_score cell kv.2 ≠ 0)).map Prod.fst

/-- `normalize_header_row(row)` as a column-index-to-key mapping: the
source builds a `Dict[int, str]` over the indices of `row`; looking a
column up in that dict is looking up the cell at that index (out-of-range
columns are absent). -/
def normalize_header_row (row : List String) (idx : Nat) : Option FieldKey :=
  (row.get? idx).bind bestKeyForCell

/-- Number of entries of the `normalize_header_row` dict
(`len(mapping)`): one per cell with a matching alias, duplicate field
keys counted once per column. -/
def mappingSize (row : List String) : Nat :=
  row.countP (fun cell => (bestKeyForCell cell).isSome)

/-! ### Vehicle dictionary model (lines 240-270)

The Python side builds a plain dict.  Each canonical key is modelled as
an `Option` field (`none` = key absent); the numeric keys hold
`Option Int` (a present key whose coercion failed holds `none`), string
keys hold the coerced string.  The debug payload keeps the originating
row or fallback text record. -/

structure Vehicle where
  auction_no : Option String := none
  maker : Option String := none
  car_name : Option String := none
  grade : Option String := none
  model_code : Option String := none
  year : Option (Option Int) := none
  mileage_km : Option (Option Int) := none
  color : Option String := none
  shift : Option String := none
  inspection_until : Option String := none
  score : Option String := none
  start_price_yen : Option (Option Int) := none
  displacement_cc : Option (Option Int) := none
  aircon : Option String := none
  equipment : Option String := none
  lane : Option String := none
  raw_row : Option (List String) := none
  raw_text_record : Option String := none
deriving DecidableEq, Repr

/-- Python truthiness of `v.get(key)` for a string-valued key: the key is
present and its value non-empty. -/
def truthyStr : Option String → Bool
  | none => false
  | some s => s ≠ ""

/-- The minimum-field retention test of line 494:
`any(vehicle.get(k) for k in ("auction_no", "car_name", "maker"))`. -/
def hasMinKeys (v : Vehicle) : Bool :=
  truthyStr v.auction_no || truthyStr v.car_name || truthyStr v.maker

/-- Leftmost match of `(-?\d+)`: at each position, an optional minus sign
directly followed by a greedy digit run, or a bare digit run. -/
def intSearch : List Char → Option Int
  | [] => none
  | c :: rest =>
    if c = '-' then
      match rest with
      | d :: _ =>
        if isAsciiDigit d then some (-(digitsToNat (rest.takeWhile isAsciiDigit) : Int))
        else intSearch rest
      | [] => none
    else if isAsciiDigit c then
      some (digitsToNat ((c :: rest).takeWhile isAsciiDigit) : Int)
    else intSearch rest

/-- The `start_price_yen` branch of `coerce_row_to_vehicle`: width-fold,
drop commas, first integer with optional sign. -/
def startPriceParse (s : String) : Option Int :=
  intSearch (removeChar (z2h s) ',').toList

/-- One `v[key] = ...` assignment of `coerce_row_to_vehicle` for the
stripped cell `s`. -/
def setVehicleField (v : Vehicle) (key : FieldKey) (s : String) : Vehicle :=
  match key with
  | .mileage_km => { v with mileage_km := some (parse_mileage_km s) }
  | .year => { v with year := some (to_int_or_none s) }
  | .start_price_yen => { v with start_price_yen := some (startPriceParse s) }
  | .displacement_cc => { v with displacement_cc := some (to_int_or_none s) }
  | .auction_no => { v with auction_no := some (z2h s) }
  | .maker => { v with maker := some (z2h s) }
  | .car_name => { v with car_name := some (z2h s) }
  | .grade => { v with grade := some (z2h s) }
  | .model_code => { v with model_code := some (z2h s) }
  | .color => { v with color := some (z2h s) }
  | .shift => { v with shift := some (z2h s) }
  | .inspection_until => { v with inspection_until := some (z2h s) }
  | .score => { v with score := some (z2h s) }
  | .aircon => { v with aircon := some (z2h s) }
  | .equipment => { v with equipment := some (z2h s) }
  | .lane => { v with lane := some (z2h s) }

/-- `coerce_row_to_vehicle(row, colmap)`: walk the cells left to right and
assign the mapped keys (later columns overwrite earlier ones mapped to
the same key, as dict assignment does). -/
def coerce_row_to_vehicle (row : List String) (colmap : Nat → Option FieldKey) : Vehicle :=
  row.enum.foldl (fun v ic =>
    match colmap ic.1 with
    | none => v
    | some key => setVehicleField v key (pyStrip ic.2)) {}

/-! ### Stacked-cell explosion (lines 272-281) -/

/-- Accumulator-style splitter modelling Python `str.splitlines`:
`\r\n` is one break, a trailing break emits no empty final line, the
empty string yields no lines. -/
def isLineBreakChar (c : Char) : Bool :=
  c = '\n' || c.toNat = 0x0B || c.toNat = 0x0C ||
  c.toNat = 0x1C || c.toNat = 0x1D || c.toNat = 0x1E ||
  c.toNat = 0x85 || c.toNat = 0x2028 || c.toNat = 0x2029

def splitlinesGo : List Char → List Char → List (List Char)
  | [], acc => if acc.isEmpty then [] else [acc.reverse]
  | '\r' :: '\n' :: rest, acc => acc.reverse :: splitlinesGo rest []
  | '\r' :: rest, acc => acc.reverse :: splitlinesGo rest []
  | c :: rest, acc =>
    if isLineBreakChar c then acc.reverse :: splitlinesGo rest []
    else splitlinesGo rest (c :: acc)

/-- Python `s.splitlines()`. -/
def pySplitlines (s : String) : List String :=
  (splitlinesGo s.toList []).map String.mk

/-- `explode_stacked_row(row)`: split every cell on line breaks; when some
cell has more than one line, emit one row per line index, aligned by
index, missing lines as `""`, each piece stripped. -/
def explode_stacked_row (row : List String) : List (List String) :=
  let split_cols := row.map pySplitlines
  let max_len := match row with
    | [] => 1
    | _ => (split_cols.map List.length).foldl Nat.max 0
  if max_len ≤ 1 then [row]
  else
    (List.range max_len).map (fun i =>
      split_cols.map (fun p =>
        match p.get? i with
        | some piece => pyStrip piece
        | none => ""))

/-! ### Fragment rows (lines 283-339) -/

/-- `_is_short_kana_fragment(s)`: NFKC-normalize, strip; accept exactly
one to three characters, all in the katakana block U+30A0-U+30FF. -/
def _is_short_kana_fragment (s : String) : Bool :=
  let t := pyStripList (nfkcStr s).toList
  t ≠ [] && t.length ≤ 3 &&
    t.all (fun c => 0x30A0 ≤ c.toNat && c.toNat ≤ 0x30FF)

/-- `_non_empty_count(row)`. -/
def _non_empty_count (row : List String) : Nat :=
  row.countP (fun c => pyStrip c ≠ "")

/-- Characters the Python word-class `\w` matches, restricted to the
repertoire of this code base: ASCII word characters, hiragana, katakana
(with prolonged-sound marks), CJK ideographs, and the full-width /
half-width Japanese forms. -/
def isWordChar (c : Char) : Bool :=
  c = '_' || c.isAlpha || c.isDigit ||
  (0x3040 ≤ c.toNat && c.toNat ≤ 0x30FF) ||
  (0x4E00 ≤ c.toNat && c.toNat ≤ 0x9FFF) ||
  (0xFF10 ≤ c.toNat && c.toNat ≤ 0xFF19) ||
  (0xFF21 ≤ c.toNat && c.toNat ≤ 0xFF3A) ||
  (0xFF41 ≤ c.toNat && c.toNat ≤ 0xFF5A) ||
  (0xFF66 ≤ c.toNat && c.toNat ≤ 0xFF9F)

/-- Word boundary test against the head of the remaining input: a break
occurs at end of input or before a non-word character. -/
def boundaryAt : List Char → Bool
  | [] => true
  | c :: _ => !isWordChar c

/-- Match of `H\d{1,2}\b` starting right after an `H` (the digits, with
the 1-vs-2-digit backtracking forced by the trailing boundary). -/
def yearTokenDigits : List Char → Bool
  | [] => false
  | d1 :: tail =>
    isAsciiDigit d1 &&
      (match tail with
       | [] => true
       | d2 :: t2 => if isAsciiDigit d2 then boundaryAt t2 else !isWordChar d2)

/-- Search of `\bH\d{1,2}\b`, carrying the previous character for the
leading word boundary. -/
def yearLikeScan (prev : Option Char) : List Char → Bool
  | [] => false
  | c :: rest =>
    (c = 'H' && (match prev with | none => true | some p => !isWordChar p) &&
      yearTokenDigits rest) ||
    yearLikeScan (some c) rest

/-- A cell is year-like when `\bH\d{1,2}\b` matches its width-folded
text (line 311). -/
def cellYearLike (c : String) : Bool :=
  yearLikeScan none (z2h c).toList

def isAsciiUpper (c : Char) : Bool := 'A' ≤ c && c ≤ 'Z'

/-- After two upper-case letters: accept on a digit, keep scanning over
further upper-case letters, reject otherwise (`[A-Z]{2,}\d{1,}`). -/
def modelTailScan : List Char → Bool
  | [] => false
  | c :: rest =>
    if isAsciiDigit c then true
    else if isAsciiUpper c then modelTailScan rest
    else false

/-- Search of `[A-Z]{2,}\d{1,}` (line 312). -/
def modelLikeScan : List Char → Bool
  | a :: b :: rest =>
    (isAsciiUpper a && isAsciiUpper b && modelTailScan rest) ||
    modelLikeScan (b :: rest)
  | _ => false

def cellModelLike (c : String) : Bool := modelLikeScan c.toList

/-- `is_fragment_row(row)`. -/
def is_fragment_row (row : List String) : Bool :=
  if row.isEmpty then false
  else if _non_empty_count row = 0 then false
  else if row.any _is_short_kana_fragment && _non_empty_count row ≤ 3 then true
  else
    row.any _is_short_kana_fragment &&
      (row.any cellYearLike || row.any cellModelLike) &&
      _non_empty_count row ≤ 4

/-- Cell-wise merge policy of `merge_fragment_row`. -/
def mergeCell (prevCell fragCell : String) : String :=
  let a := pyStrip prevCell
  let b := pyStrip fragCell
  if b = "" then prevCell
  else if a = "" then b
  else if _is_short_kana_fragment a || _is_short_kana_fragment b then a ++ b
  else if !strContains a b then a ++ " " ++ b
  else prevCell

/-- `merge_fragment_row(prev, frag)`: pad both rows to a common width and
merge cell-wise. -/
def merge_fragment_row (prev frag : List String) : List String :=
  let cols := max prev.length frag.length
  let out := prev ++ List.replicate (cols - prev.length) ""
  let frag2 := frag ++ List.replicate (cols - frag.length) ""
  List.zipWith mergeCell out frag2

/-! ### Maker salvage (lines 153-221) -/

/-- `_complete_maker_prefix(token_norm)`: the unique known maker whose
normalized name starts with the token, `none` when zero or several
candidates exist. -/
def _complete_maker_prefix (token_norm : String) : Option String :=
  match (_KNOWN_MAKERS_NORM.filter
      (fun kv => strStartsWith kv.1 token_norm)).map Prod.snd with
  | [mk] => some mk
  | _ => none

/-- `_lead2_norm(s)` (local helper of `salvage_maker_from_row_cells`):
first two characters of the width-folded, Japanese-normalized cell. -/
def _lead2_norm (s : String) : String :=
  String.mk ((_norm_jp (z2h s)).toList.take 2)

/-- One `(fragA, fragB) → maker` rule test on an adjacent cell pair. -/
def fragmentRuleHit (a b : String) (rule : (String × String) × String) : Bool :=
  let fragA := rule.1.1
  let fragB := rule.1.2
  let a_dev := _devoice_katakana a
  let b_dev := _devoice_katakana b
  (strEndsWith a fragA && (strStartsWith b fragB || strContains b fragB)) ||
  (strEndsWith a_dev fragA && (strStartsWith b_dev fragB || strContains b_dev fragB))

/-- Scan of consecutive cell pairs against `MAKER_FRAGMENT_RULES`
(pair index outermost, rule order innermost, first hit wins). -/
def fragmentPairScan : List String → Option String
  | a :: b :: rest =>
    match MAKER_FRAGMENT_RULES.findSome? (fun rule =>
        if fragmentRuleHit (_lead2_norm a) (_lead2_norm b) rule then some rule.2
        else none) with
    | some mk => some mk
    | none => fragmentPairScan (b :: rest)
  | _ => none

/-- Containment of a known maker in a normalized text: first maker (in
dict order) contained in the text or in its devoiced form; the car-name
remainder is the stripped text with every occurrence removed
(`replace`), `none` when that is empty. -/
def makerContainScan (norm : String) : Option (String × Option String) :=
  _KNOWN_MAKERS_NORM.findSome? (fun kv =>
    if strContains norm kv.1 || strContains (_devoice_katakana norm) kv.1 then
      some (kv.2,
        if pyStrip (removeAllSub norm kv.1) = "" then none
        else some (pyStrip (removeAllSub norm kv.1)))
    else none)

/-- Sliding 3-then-2 character windows over the leading kana / kanji
characters of `head_norm`, at most six start offsets, accepting only an
unambiguous maker-name prefix (strategy 5 of the salvage resolver). -/
def windowScan (tokens : List Char) : Option String :=
  [3, 2].findSome? (fun n =>
    (List.range (min ((Int.ofNat tokens.length - Int.ofNat n + 1).toNat) 6)).findSome?
      (fun i =>
        match _complete_maker_prefix (String.mk ((tokens.drop i).take n)) with
        | some mk => some mk
        | none =>
          _complete_maker_prefix
            (_devoice_katakana (String.mk ((tokens.drop i).take n)))))

/-- Kana / kanji characters of a string (`re.findall` of the single-char
class: katakana block or CJK ideographs). -/
def kanaKanjiChars (s : String) : List Char :=
  s.toList.filter (fun c =>
    (0x30A0 ≤ c.toNat && c.toNat ≤ 0x30FF) ||
    (0x4E00 ≤ c.toNat && c.toNat ≤ 0x9FFF))

/-- The normalized head text of salvage strategies 2 and 5 (`head_norm`
of the source): joined first six cells, width-folded, lot-token-stripped,
Japanese-normalized. -/
def salvageHeadNorm (row : List String) : String :=
  _norm_jp (_strip_leading_lot_tokens (z2h (String.join (row.take 6))))

/-- The normalized full-row text of salvage strategy 4 (`all_norm` of the
source): non-empty cells joined with spaces, stripped, width-folded,
lot-token-stripped, Japanese-normalized. -/
def salvageAllNorm (row : List String) : String :=
  _norm_jp (_strip_leading_lot_tokens (z2h (pyStrip (String.intercalate " "
    (row.filter (fun c => c ≠ ""))))))

/-- `salvage_maker_from_row_cells(row)`: noise-strip the row, then try
the five strategies in order — adjacent-pair fragment join over the
first six cells, maker containment in the joined first six cells,
adjacent-pair join over the first five cells, containment in the joined
full row, unambiguous prefix windows — returning `(maker, car-name
candidate)`. -/
def salvage_maker_from_row_cells (row₀ : List String) :
    Option String × Option String :=
  if !(_strip_noise_row row₀).any (fun c => pyStrip c ≠ "") then (none, none)
  else
    match fragmentPairScan ((_strip_noise_row row₀).take 6) with
    | some mk => (some mk, none)
    | none =>
      match makerContainScan (salvageHeadNorm (_strip_noise_row row₀)) with
      | some (mk, rest) => (some mk, rest)
      | none =>
        match fragmentPairScan ((_strip_noise_row row₀).take 5) with
        | some mk => (some mk, none)
        | none =>
          match makerContainScan (salvageAllNorm (_strip_noise_row row₀)) with
          | some (mk, rest) => (some mk, rest)
          | none =>
            match windowScan
                (kanaKanjiChars (salvageHeadNorm (_strip_noise_row row₀))) with
            | some mk => (some mk, none)
            | none => (none, none)

/-- The maker scan of the car-name-prefix salvage: first known maker that
the normalized (or devoiced) car name starts with, paired with the
stripped remainder of the normalized name. -/
def carNamePrefixScan (name_norm : String) : Option (String × String) :=
  _KNOWN_MAKERS_NORM.findSome? (fun kv =>
    if strStartsWith name_norm kv.1 ||
        strStartsWith (_devoice_katakana name_norm) kv.1 then
      some (kv.2, pyStrip (String.mk (name_norm.toList.drop kv.1.toList.length)))
    else none)

/-- `salvage_maker_from_car_name_prefix(v)`: when the car name is known
and the maker is not, and the normalized (or devoiced) car name starts
with a known maker, split it into maker and remainder. -/
def salvage_maker_from_car_name_prefix (v : Vehicle) : Vehicle :=
  if pyStrip (v.car_name.getD "") = "" || truthyStr v.maker then v
  else
    match carNamePrefixScan (_norm_jp (z2h (pyStrip (v.car_name.getD "")))) with
    | some (mk, rest) =>
      if rest ≠ "" then { v with maker := some mk, car_name := some rest }
      else { v with maker := some mk }
    | none => v

/-! ### Text fallback (lines 341-394) -/

/-- Collapse runs of space, tab and ideographic space into one space
(the substitution step of `_normalize_text_line`). -/
def isWs3 (c : Char) : Bool := c = ' ' || c = '\t' || c.toNat = 0x3000

def collapseWs : List Char → Bool → List Char
  | [], _ => []
  | c :: rest, prevWs =>
    if isWs3 c then
      if prevWs then collapseWs rest true else ' ' :: collapseWs rest true
    else c :: collapseWs rest false

/-- `_normalize_text_line(s)`: NFKC, collapse inner whitespace runs,
strip. -/
def _normalize_text_line (s : String) : String :=
  pyStrip (String.mk (collapseWs (nfkcStr s).toList false))

/-- `KEY_LINE.match(line)`: optional whitespace, one of the key tokens
(`KEY` case-insensitively), then a word boundary. -/
def keyLineMatch (line : String) : Bool :=
  let t := line.toList.dropWhile pyIsSpace
  (strStartsWith (String.mk t) "ｷｰ" && boundaryAt (t.drop 2)) ||
  (strStartsWith (String.mk t) "キー" && boundaryAt (t.drop 2)) ||
  (strStartsWith (asciiLower (String.mk (t.take 3))) "key" && t.length ≥ 3 &&
    boundaryAt (t.drop 3))

/-- `LOT_START.match(line)`: optional whitespace, exactly five digits,
a word boundary. -/
def lotStartMatch (line : String) : Bool :=
  let t := line.toList.dropWhile pyIsSpace
  (t.take 5).length = 5 && (t.take 5).all isAsciiDigit && boundaryAt (t.drop 5)

/-- `OPTION_TOKENS`. -/
def OPTION_TOKENS : List String :=
  [ "AW", "ナビ", "ﾅﾋﾞ", "革", "B", "有", "無", "I", "J", "FA", "IA", "AT",
    "MT", "AAC", "AC", "PS", "PW", "4WD", "2WD", "ABS", "SRS", "HDD",
    "ETC", "HID" ]

/-- Characters kept when cleaning an option token (the character class
of line 359: word characters, CJK ideographs, kana, prolonged-sound
mark, hyphen, full-width and ASCII dot). -/
def keepOptChar (c : Char) : Bool :=
  isWordChar c || c = 'ｰ' || c = '-' || c = '．' || c = '.'

/-- Split on every single space or comma (`re.split(r"[ ,]", line)`). -/
def splitSpaceCommaGo : List Char → List Char → List (List Char)
  | [], acc => [acc.reverse]
  | c :: rest, acc =>
    if c = ' ' || c = ',' then acc.reverse :: splitSpaceCommaGo rest []
    else splitSpaceCommaGo rest (c :: acc)

/-- Per-token classification of `_is_option_only`: `none` when a cleaned
token disqualifies the line, otherwise the number of good tokens. -/
def optionGoodCount : List (List Char) → Option Nat
  | [] => some 0
  | t :: rest =>
    let t_clean := t.filter keepOptChar
    if t_clean = [] then optionGoodCount rest
    else if OPTION_TOKENS.contains (String.mk t_clean) ||
        (t_clean.length = 1 && (t_clean = ['I'] || t_clean = ['J'])) ||
        (1 ≤ t_clean.length && t_clean.length ≤ 3 && t_clean.all Char.isAlpha) then
      (optionGoodCount rest).map (· + 1)
    else none

/-- `_is_option_only(line)`. -/
def _is_option_only (line : String) : Bool :=
  let toks := (splitSpaceCommaGo line.toList []).filter (· ≠ [])
  if toks = [] then false
  else match optionGoodCount toks with
    | some good => good > 0
    | none => false

/-- One step of the `group_records` loop; state is (grouped, current). -/
def groupStep (st : List String × Option String) (raw : String) :
    List String × Option String :=
  let line := _normalize_text_line raw
  if line = "" then st
  else if keyLineMatch line then st
  else if lotStartMatch line then
    match st.2 with
    | some cur => (st.1 ++ [pyStrip cur], some line)
    | none => (st.1, some line)
  else
    match st.2 with
    | none => if _is_option_only line then st else (st.1, some line)
    | some cur => (st.1, some (cur ++ " " ++ line))

/-- `group_records(raw_lines)`. -/
def group_records (raw_lines : List String) : List String :=
  let st := raw_lines.foldl groupStep ([], none)
  match st.2 with
  | some cur => st.1 ++ [pyStrip cur]
  | none => st.1

/-- Maker scan of the fallback loop (lines 509-515): first known maker
contained in the normalized (or devoiced) record text. -/
def textFallbackMaker (rec : String) : Option String :=
  let head_norm := _norm_jp (_strip_leading_lot_tokens (z2h rec))
  let head_dev := _devoice_katakana head_norm
  _KNOWN_MAKERS_NORM.findSome? (fun kv =>
    if strContains head_norm kv.1 || strContains head_dev kv.1 then some kv.2
    else none)

/-! ### Venue and metadata extraction (lines 404-417, 524-525) -/

/-- Character class of the venue regex: hiragana, katakana or CJK
ideograph. -/
def isVenueJP (c : Char) : Bool :=
  (0x3040 ≤ c.toNat && c.toNat ≤ 0x30FF) ||
  (0x4E00 ≤ c.toNat && c.toNat ≤ 0x9FFF)

/-- Venue pattern attempt at the head of the input: a network token
(`USS`, `JU`, `TAA`, tried in alternation order), optional whitespace,
one or more Japanese characters (greedy); returns the matched text. -/
def venueAt (l : List Char) : Option (List Char) :=
  ["USS", "JU", "TAA"].findSome? (fun lit =>
    if lit.toList.isPrefixOf l then
      let rest := l.drop lit.toList.length
      let ws := rest.takeWhile pyIsSpace
      let run := (rest.drop ws.length).takeWhile isVenueJP
      if run ≠ [] then some (lit.toList ++ ws ++ run) else none
    else none)

/-- Leftmost venue match. -/
def venueScan : List Char → Option (List Char)
  | [] => none
  | c :: rest =>
    match venueAt (c :: rest) with
    | some m => some m
    | none => venueScan rest

/-- Venue extraction over the joined document text:
`z2h(match).replace(" ", "")`. -/
def extractVenue (joined : String) : Option String :=
  (venueScan joined.toList).map (fun m => removeChar (z2h (String.mk m)) ' ')

/-! ### The parse pipeline (lines 396-535)

`pdfplumber` is the external page-geometry library: a page is modelled by
what the source extracts from it — its `extract_text()` result and the
table lists of the two `extract_tables` strategy calls (a strategy that
raises contributes the empty list, as the `except` arm does).  A `None`
table cell is modelled as `""`, matching the pervasive `(c or "")`
coercion of the source. -/

structure Page where
  text : String
  tablesLines : List (List (List String))
  tablesText : List (List (List String))
deriving Repr

/-- Tables of one page: both strategies' results concatenated in
strategy order (lines 423-436). -/
def pageTables (p : Page) : List (List (List String)) :=
  p.tablesLines ++ p.tablesText

/-- Row `i` of a table with every cell stripped (line 450 / 462). -/
def tableStrippedRow (tbl : List (List String)) (i : Nat) : List String :=
  (tbl.getD i []).map pyStrip

/-- The header-selection fold of lines 447-453: state is
`(best_cols, header_row_idx)`, a strictly greater mapping size updates
both. -/
def selBest : List (Nat × Nat) → Nat × Nat → Nat × Nat
  | [], st => st
  | p :: rest, st => selBest rest (if p.2 > st.1 then (p.2, p.1) else st)

/-- Candidate rows for header detection: the first `min 3 len` rows with
their mapping sizes. -/
def headerCandidates (tbl : List (List String)) : List (Nat × Nat) :=
  (List.range (min 3 tbl.length)).map (fun i => (i, mappingSize (tableStrippedRow tbl i)))

/-- `(best_cols, header_row_idx)` for a table. -/
def headerSelect (tbl : List (List String)) : Nat × Nat :=
  selBest (headerCandidates tbl) (0, 0)

/-- One step of the data-row normalization loop (lines 461-474): skip an
all-empty row, merge a fragment row into the last retained row, else
retain. -/
def normStep (acc : List (List String)) (sub : List String) : List (List String) :=
  if sub.all (fun c => pyStrip c = "") then acc
  else
    match acc.getLast? with
    | some lastRow =>
      if is_fragment_row sub then acc.dropLast ++ [merge_fragment_row lastRow sub]
      else acc ++ [sub]
    | none => acc ++ [sub]

/-- The normalized data rows of a table: strip, explode stacked cells,
noise-strip, then fold through `normStep`. -/
def buildNormRows (data_rows : List (List String)) : List (List String) :=
  data_rows.foldl (fun acc r =>
    (explode_stacked_row (r.map pyStrip)).foldl
      (fun acc2 sub => normStep acc2 (_strip_noise_row sub)) acc) []

/-- Vehicle assembly for one normalized row (lines 477-500): coerce,
salvage the maker from the row cells when absent, split a maker off the
car name, keep the record only when the minimum-field rule holds, and
attach the raw row. -/
def finalizeVehicle (row : List String) (v : Vehicle) : Option Vehicle :=
  if hasMinKeys v then some { v with raw_row := some row } else none

def assembleRow (colmap : Nat → Option FieldKey) (row : List String) : Option Vehicle :=
  let v0 := coerce_row_to_vehicle row colmap
  let v1 :=
    if truthyStr v0.maker then v0
    else
      match salvage_maker_from_row_cells row with
      | (some mk, car_rest) =>
        let va := { v0 with maker := some mk }
        if !truthyStr va.car_name then
          match car_rest with
          | some r => { va with car_name := some r }
          | none => va
        else va
      | (none, _) => v0
  finalizeVehicle row ( salvage_maker_from_car_name_prefix v1)

/-- Records contributed by one candidate table (lines 442-500). -/
def processTable (tbl : List (List String)) : List Vehicle :=
  if tbl.length < 2 then []
  else if (headerSelect tbl).1 = 0 then []
  else
    (buildNormRows (tbl.drop ((headerSelect tbl).2 + 1))).filterMap
      (assembleRow (normalize_header_row (tableStrippedRow tbl (headerSelect tbl).2)))

/-- `any_table_parsed`: some page produced at least one candidate
table. -/
def anyTableParsed (pages : List Page) : Bool :=
  pages.any (fun p => !(pageTables p).isEmpty)

/-- All vehicles of the table path, in page and table order. -/
def tableVehicles (pages : List Page) : List Vehicle :=
  pages.flatMap (fun p => (pageTables p).flatMap processTable)

/-- The line pool of the fallback path (lines 504-506). -/
def docLines (pages : List Page) : List String :=
  pages.flatMap (fun p => pySplitlines p.text)

/-- Vehicles of the text fallback (lines 507-522): one record per grouped
text record containing a known maker. -/
def fallbackVehicles (pages : List Page) : List Vehicle :=
  (group_records (docLines pages)).filterMap (fun rec =>
    (textFallbackMaker rec).map (fun mk =>
      { maker := some mk, raw_text_record := some rec : Vehicle }))

/-- The result dict of `parse_auction_sheet` (the ISO rendering of the
date is left structured). -/
structure ParseResult where
  file_name : String
  auction_name : Option String
  auction_date : Option PDate
  vehicles : List Vehicle
deriving Repr

/-- `"\n".join(all_text)`. -/
def joinedText (pages : List Page) : String :=
  String.intercalate "\n" (pages.map Page.text)

/-- `parse_auction_sheet(pdf_bytes, filename)` over the page model:
metadata from the joined text, the table path over every page, the text
fallback only when no table was parsed anywhere and the table path is
empty, and the USS filename heuristic for a missing venue name. -/
def parse_auction_sheet (pages : List Page) (filename : String) : ParseResult :=
  let joined := joinedText pages
  let auction_name0 := extractVenue joined
  let auction_date_val := parse_auction_date joined
  let tv := tableVehicles pages
  let vehicles :=
    if !anyTableParsed pages && tv.isEmpty then tv ++ fallbackVehicles pages
    else tv
  let auction_name :=
    if !truthyStr auction_name0 && strContains (asciiLower filename) "uss" then
      some "USS"
    else auction_name0
  ⟨filename, auction_name, auction_date_val, vehicles⟩

/-! ### Auxiliary definitions for the verification -/

/-- The whitespace repertoire of `pyIsSpace`, as an explicit list (used
to reason by enumeration about whitespace characters). -/
def spaceCharList : List Char :=
  [ '\x09', '\x0a', '\x0b', '\x0c', '\x0d', '\x1c', '\x1d', '\x1e', '\x1f',
    '\x20', '\u0085', '\u00A0', '\u1680', '\u2000', '\u2001', '\u2002',
    '\u2003', '\u2004', '\u2005', '\u2006', '\u2007', '\u2008', '\u2009',
    '\u200A', '\u2028', '\u2029', '\u202F', '\u205F', '\u3000' ]

/-- Written from the specification wording for comparison (claim about
header selection): the count of DISTINCT canonical fields matched by
some cell of a row, as opposed to the per-column count `mappingSize`
that the code uses. -/
def specDistinctFieldCount (row : List String) : Nat :=
  (row.filterMap bestKeyForCell).dedup.length

/-- Fixture: the header row of the end-to-end example of the spec. -/
def exampleHeader : List String :=
  ["出品番号", "メーカー", "車名", "年式", "走行距離", "スタート"]

/-- Fixture: the data row of the end-to-end example of the spec. -/
def exampleDataRow : List String :=
  ["12345", "ホンダ", "フィット", "H20", "8.5", "300,000"]

def exampleTable : List (List String) := [exampleHeader, exampleDataRow]

def examplePage : Page := ⟨"", [exampleTable], []⟩

/-- Fixture: the vehicle the pipeline assembles from the example row. -/
def exampleVehicle : Vehicle :=
  { auction_no := some "12345", maker := some "ホンダ", car_name := some "フィット",
    year := some (some 20), mileage_km := some (some 8),
    start_price_yen := some (some 300000), raw_row := some exampleDataRow }

/-- Fixture: a table whose row 0 matches the maker field in three
columns (one distinct field) while row 1 matches two distinct fields. -/
def dupHeaderTable : List (List String) :=
  [["メーカー", "ﾒｰｶｰ", "Maker"], ["出品番号", "車名", "x"], ["1", "2", "3"]]

/-- Fixture: a page whose only table has no usable header but whose text
would produce a fallback record. -/
def unusableHeaderPage : Page :=
  ⟨"12345 トヨタ", [[["a", "b"], ["c", "d"]]], []⟩

/-- Fixture: a page with no tables at all and fallback-usable text. -/
def noTablePage : Page := ⟨"12345 トヨタ", [], []⟩

/-- Fixture: a page with no tables and no usable text. -/
def emptyPage : Page := ⟨"", [], []⟩

/-! ## Theorems -/

/-! ### Whitespace and stripping -/

theorem toList_mk (l : List Char) : (String.mk l).toList = l := rfl

theorem pyIsSpace_mem_spaceCharList {c : Char} (h : pyIsSpace c = true) :
    c ∈ spaceCharList := by
  have hc := Char.ofNat_toNat c
  simp only [pyIsSpace, Bool.or_eq_true, Bool.and_eq_true, decide_eq_true_eq] at h
  have hn : c.toNat = 0x09 ∨ c.toNat = 0x0a ∨ c.toNat = 0x0b ∨ c.toNat = 0x0c ∨
      c.toNat = 0x0d ∨ c.toNat = 0x1c ∨ c.toNat = 0x1d ∨ c.toNat = 0x1e ∨
      c.toNat = 0x1f ∨ c.toNat = 0x20 ∨ c.toNat = 0x85 ∨ c.toNat = 0xA0 ∨
      c.toNat = 0x1680 ∨ c.toNat = 0x2000 ∨ c.toNat = 0x2001 ∨
      c.toNat = 0x2002 ∨ c.toNat = 0x2003 ∨ c.toNat = 0x2004 ∨
      c.toNat = 0x2005 ∨ c.toNat = 0x2006 ∨ c.toNat = 0x2007 ∨
      c.toNat = 0x2008 ∨ c.toNat = 0x2009 ∨ c.toNat = 0x200A ∨
      c.toNat = 0x2028 ∨ c.toNat = 0x2029 ∨ c.toNat = 0x202F ∨
      c.toNat = 0x205F ∨ c.toNat = 0x3000 := by omega
  rcases hn with h1 | h1 | h1 | h1 | h1 | h1 | h1 | h1 | h1 | h1 | h1 | h1 |
    h1 | h1 | h1 | h1 | h1 | h1 | h1 | h1 | h1 | h1 | h1 | h1 | h1 | h1 |
    h1 | h1 | h1 <;>
    (rw [← hc, h1]; decide)

theorem dropWhile_idem (p : Char → Bool) (l : List Char) :
    (l.dropWhile p).dropWhile p = l.dropWhile p := by
  induction l with
  | nil => rfl
  | cons a t ih =>
    by_cases h : p a
    · simp [List.dropWhile_cons, h, ih]
    · simp [List.dropWhile_cons, h]

theorem head_of_dropWhile {p : Char → Bool} :
    ∀ {l : List Char} {c : Char}, (l.dropWhile p).head? = some c → p c = false := by
  intro l
  induction l with
  | nil => intro c h; cases h
  | cons a t ih =>
    intro c h
    by_cases ha : p a
    · rw [List.dropWhile_cons, if_pos ha] at h
      exact ih h
    · rw [List.dropWhile_cons, if_neg ha] at h
      cases h
      simpa using ha

theorem dropWhile_of_head {p : Char → Bool} {l : List Char}
    (h : ∀ c, l.head? = some c → p c = false) : l.dropWhile p = l := by
  cases l with
  | nil => rfl
  | cons a t => rw [List.dropWhile_cons, if_neg (by simp [h a rfl])]

theorem backStripPart_prefix (l : List Char) :
    (l.reverse.dropWhile pyIsSpace).reverse <+: l := by
  have h := List.reverse_prefix.mpr (List.dropWhile_suffix (l := l.reverse) pyIsSpace)
  simpa using h

theorem head_of_pyStripList {l : List Char} {c : Char}
    (h : (pyStripList l).head? = some c) : pyIsSpace c = false := by
  have hpre : pyStripList l <+: l.dropWhile pyIsSpace :=
    backStripPart_prefix (l.dropWhile pyIsSpace)
  obtain ⟨t, ht⟩ := hpre
  cases hsp : pyStripList l with
  | nil => rw [hsp] at h; cases h
  | cons a xs =>
    rw [hsp] at h ht
    have hac : a = c := by
      simpa using h
    have hh : (l.dropWhile pyIsSpace).head? = some c := by
      rw [← ht, hac]
      rfl
    exact head_of_dropWhile hh

theorem pyStripList_idem (l : List Char) :
    pyStripList (pyStripList l) = pyStripList l := by
  have hfront : (pyStripList l).dropWhile pyIsSpace = pyStripList l :=
    dropWhile_of_head (fun c hc => head_of_pyStripList hc)
  calc pyStripList (pyStripList l)
      = (((pyStripList l).dropWhile pyIsSpace).reverse.dropWhile pyIsSpace).reverse := rfl
    _ = ((pyStripList l).reverse.dropWhile pyIsSpace).reverse := by rw [hfront]
    _ = pyStripList l := by
        unfold pyStripList
        rw [List.reverse_reverse, dropWhile_idem]

/-! ### The ZEN2HAN translation -/

theorem zen2hanChar_cases (c : Char) :
    zen2hanChar c = c ∨ ∃ p ∈ ZEN2HAN, c = p.1 ∧ zen2hanChar c = p.2 := by
  unfold zen2hanChar
  cases hf : ZEN2HAN.find? (fun p => p.1 == c) with
  | none => left; rfl
  | some p =>
    right
    refine ⟨p, List.mem_of_find?_eq_some hf, ?_, by simp [hf]⟩
    have hb2 : (p.1 == c) = true :=
      @List.find?_some _ (fun q : Char × Char => q.1 == c) p ZEN2HAN hf
    exact (eq_of_beq hb2).symm

theorem zen2hanChar_pres_space (c : Char) :
    pyIsSpace (zen2hanChar c) = pyIsSpace c := by
  rcases zen2hanChar_cases c with h | ⟨p, hp, hc, hz⟩
  · rw [h]
  · rw [hz, hc]
    have hfact : ∀ q ∈ ZEN2HAN, pyIsSpace q.2 = false ∧ pyIsSpace q.1 = false := by
      decide
    rw [(hfact p hp).1, (hfact p hp).2]

theorem zen2hanChar_idem (c : Char) :
    zen2hanChar (zen2hanChar c) = zen2hanChar c := by
  rcases zen2hanChar_cases c with h | ⟨p, hp, _, hz⟩
  · rw [h, h]
  · rw [hz]
    have hfact : ∀ q ∈ ZEN2HAN, zen2hanChar q.2 = q.2 := by decide
    exact hfact p hp

theorem map_zen_pyStripList (l : List Char) :
    (pyStripList l).map zen2hanChar = pyStripList (l.map zen2hanChar) := by
  have hcomp : pyIsSpace ∘ zen2hanChar = pyIsSpace := funext zen2hanChar_pres_space
  unfold pyStripList
  rw [List.dropWhile_map, hcomp, ← List.map_reverse, List.dropWhile_map, hcomp,
    ← List.map_reverse]

/-- C9: width normalization (`z2h`) is idempotent: translating through the
`ZEN2HAN` table and stripping a second time changes nothing, for every
input string. -/
theorem C9_normalize_width_idempotent (x : String) : z2h (z2h x) = z2h x := by
  have hzz : zen2hanChar ∘ zen2hanChar = zen2hanChar := funext zen2hanChar_idem
  unfold z2h
  rw [toList_mk, ← map_zen_pyStripList, pyStripList_idem, map_zen_pyStripList,
    List.map_map, hzz]

/-! ### C2: year coercion -/

/-- C2 counterexample: the claim says the cell `"H20"` under header
`"年式"` yields `year = 2008` through era-aware conversion; on the code
the year branch of the Record Assembler is `to_int_or_none`, which strips
the `H` and yields `20`, not `2008`. -/
theorem C2_year_counterexample :
    (coerce_row_to_vehicle exampleDataRow
        (normalize_header_row (tableStrippedRow exampleTable 0))).year
      = some (some 20) ∧
    (coerce_row_to_vehicle exampleDataRow
        (normalize_header_row (tableStrippedRow exampleTable 0))).year
      ≠ some (some 2008) := by
  constructor
  · decide
  · decide

/-- C2 (amended): every year assignment of the Record Assembler is the
plain integer parse `to_int_or_none` — no era-aware conversion exists on
this path — and on the end-to-end example row the cell `"H20"` under
header `"年式"` therefore yields `year = 20` in the assembled record. -/
theorem C2_year_plain_int_parse :
    (∀ v s, (setVehicleField v .year s).year = some (to_int_or_none s)) ∧
    to_int_or_none "H20" = some 20 ∧
    (parse_auction_sheet [examplePage] "f.pdf").vehicles = [exampleVehicle] := by
  refine ⟨fun v s => rfl, by decide, by decide⟩

/-- C2 witness: the universally quantified first conjunct applied at a
concrete vehicle and cell. -/
theorem C2_year_plain_int_parse_witness :
    (setVehicleField {} .year "H20").year = some (to_int_or_none "H20") :=
  C2_year_plain_int_parse.1 {} "H20"

/-! ### C3: mileage coercion -/

/-- C3 counterexample: the claim says a parsed mileage below 1000 is
multiplied by 1000 so that `"8.5"` yields `8500`; the code has no such
scaling and `parse_mileage_km "8.5"` is the first digit run, `8`. -/
theorem C3_mileage_counterexample :
    parse_mileage_km "8.5" = some 8 ∧ parse_mileage_km "8.5" ≠ some 8500 := by
  constructor
  · decide
  · decide

/-- C3 (amended): `parse_mileage_km` takes the first run of up to nine
digits of the width-folded, comma-free cell and returns it unchanged;
values below 1000 are not scaled: `"8.5"` yields `8`, `"45"` yields `45`,
and `"300,000"` yields `300000`. -/
theorem C3_mileage_no_thousands_scaling :
    parse_mileage_km "8.5" = some 8 ∧
    parse_mileage_km "45" = some 45 ∧
    parse_mileage_km "300,000" = some 300000 ∧
    parse_mileage_km "45000km" = some 45000 := by
  refine ⟨by decide, by decide, by decide, by decide⟩

/-! ### C7: maker fragment join -/

/-- C7 counterexample: on the row `["", "トヨ", "タ アクア", ""]` the
claim expects `("トヨタ", "アクア")`; the adjacent-cell fragment join
(strategy 1) matches `(トヨ, タ)` first and returns no leftover text, so
the result is `(some "トヨタ", none)`. -/
theorem C7_salvage_counterexample :
    salvage_maker_from_row_cells ["", "トヨ", "タ アクア", ""]
      ≠ (some "トヨタ", some "アクア") := by
  decide

/-- C7 (amended): on the row `["", "トヨ", "タ アクア", ""]` the maker
salvage resolver returns canonical maker `"トヨタ"` with no car-name
candidate: the adjacent-cell fragment join fires before the containment
strategy that exposes leftover text. -/
theorem C7_salvage_fragment_join_no_leftover :
    salvage_maker_from_row_cells ["", "トヨ", "タ アクア", ""]
      = (some "トヨタ", none) ∧
    fragmentPairScan ((_strip_noise_row ["", "トヨ", "タ アクア", ""]).take 6)
      = some "トヨタ" := by
  refine ⟨by decide, by decide⟩

/-! ### C8: document date parsing -/

/-- C8 counterexample: the claim says `parse_auction_date "令和6年5月"`
returns 2024-05-01; the Reiwa pattern `[Rr令][\s]*` requires digits right
after the marker, the `和` blocks the match, and the result is `none`. -/
theorem C8_reiwa_counterexample :
    parse_auction_date "令和6年5月" = none ∧
    parse_auction_date "令和6年5月" ≠ some ⟨2024, 5, 1⟩ := by
  refine ⟨by decide, by decide⟩

/-- C8 (amended): era-marked text converts with the day defaulting to 1
when the era year follows the marker directly — `"平成31年4月"` yields
2019-04-01 (the `成` of `平成` matches the Heisei class) and `"R6.5"`
yields 2024-05-01 — but the full Reiwa spelling `"令和6年5月"` yields no
date. -/
theorem C8_era_conversion :
    parse_auction_date "平成31年4月" = some ⟨2019, 4, 1⟩ ∧
    parse_auction_date "R6.5" = some ⟨2024, 5, 1⟩ ∧
    parse_auction_date "令和6年5月" = none := by
  refine ⟨by decide, by decide, by decide⟩

/-! ### C4: header selection counterexample -/

/-- C4 counterexample: on `dupHeaderTable`, row 0 matches the maker field
in three separate columns (one distinct field) and row 1 matches two
distinct fields; the code compares `len(mapping)` (3 versus 2) and
selects row 0, not the row with the greatest count of distinct matched
fields. -/
theorem C4_distinct_fields_counterexample :
    headerSelect dupHeaderTable = (3, 0) ∧
    specDistinctFieldCount (tableStrippedRow dupHeaderTable 0) = 1 ∧
    specDistinctFieldCount (tableStrippedRow dupHeaderTable 1) = 2 := by
  refine ⟨by decide, by decide, by decide⟩

/-! ### C6: fragment detection and merging -/

theorem nfkcChar_space {c : Char} (h : pyIsSpace c = true) :
    pyIsSpace (nfkcChar c) = true := by
  have hmem := pyIsSpace_mem_spaceCharList h
  have hfact : ∀ d ∈ spaceCharList, pyIsSpace (nfkcChar d) = true := by decide
  exact hfact c hmem

theorem kanaCompose_space {c : Char} (h : pyIsSpace c = true) (m : Char) :
    kanaCompose c m = none := by
  have hmem := pyIsSpace_mem_spaceCharList h
  have hfact : ∀ d ∈ spaceCharList,
      composeVoiced d = none ∧ composeSemivoiced d = none := by decide
  unfold kanaCompose
  rcases hfact c hmem with ⟨h1, h2⟩
  split_ifs <;> simp [h1, h2]

theorem nfkcList_space_fuel :
    ∀ (n : Nat) (l : List Char), l.length ≤ n →
      (∀ c ∈ l, pyIsSpace c = true) → ∀ d ∈ nfkcList l, pyIsSpace d = true := by
  intro n
  induction n with
  | zero =>
    intro l hl _ d hd
    have : l = [] := List.length_eq_zero.mp (Nat.le_zero.mp hl)
    subst this
    cases hd
  | succ n ih =>
    intro l hl hall d hd
    match l with
    | [] => cases hd
    | [c] =>
      simp only [nfkcList, List.mem_singleton] at hd
      subst hd
      exact nfkcChar_space (hall c (by simp))
    | c :: v :: rest =>
      have hnone : kanaCompose (nfkcChar c) (nfkcChar v) = none :=
        kanaCompose_space (nfkcChar_space (hall c (by simp))) (nfkcChar v)
      simp only [nfkcList] at hd
      rw [hnone] at hd
      rcases List.mem_cons.mp hd with hd | hd
      · subst hd
        exact nfkcChar_space (hall c (by simp))
      · refine ih (v :: rest) ?_ (fun x hx => hall x (by simp [hx])) d hd
        have := hl
        simp at this ⊢
        omega

theorem nfkcList_space (l : List Char) (h : ∀ c ∈ l, pyIsSpace c = true) :
    ∀ d ∈ nfkcList l, pyIsSpace d = true :=
  nfkcList_space_fuel l.length l (Nat.le_refl _) h

theorem pyStripList_eq_nil_of_all_space {l : List Char}
    (h : ∀ c ∈ l, pyIsSpace c = true) : pyStripList l = [] := by
  unfold pyStripList
  rw [List.dropWhile_eq_nil_iff.mpr h]
  rfl

theorem all_space_of_pyStripList_eq_nil {l : List Char}
    (h : pyStripList l = []) : ∀ c ∈ l, pyIsSpace c = true := by
  unfold pyStripList at h
  have h1 : (l.dropWhile pyIsSpace).reverse.dropWhile pyIsSpace = [] := by
    rwa [List.reverse_eq_nil_iff] at h
  have h2 : ∀ c ∈ (l.dropWhile pyIsSpace).reverse, pyIsSpace c = true :=
    List.dropWhile_eq_nil_iff.mp h1
  intro c hc
  rw [← List.takeWhile_append_dropWhile (p := pyIsSpace) (l := l)] at hc
  rcases List.mem_append.mp hc with hc | hc
  · exact List.mem_takeWhile_imp hc
  · exact h2 c (List.mem_reverse.mpr hc)

/-- A short-katakana cell survives Python stripping: its NFKC image has a
non-space character, so the raw cell cannot be whitespace only. -/
theorem short_kana_cell_nonempty {s : String}
    (h : _is_short_kana_fragment s = true) : pyStrip s ≠ "" := by
  intro hempty
  have hnil : pyStripList s.toList = [] := by
    have : (pyStrip s).toList = [] := by rw [hempty]; rfl
    simpa [pyStrip] using this
  have hall := all_space_of_pyStripList_eq_nil hnil
  have hallnf : ∀ c ∈ nfkcList s.toList, pyIsSpace c = true :=
    nfkcList_space s.toList hall
  have hnil2 : pyStripList (nfkcStr s).toList = [] :=
    pyStripList_eq_nil_of_all_space (by simpa [nfkcStr] using hallnf)
  unfold _is_short_kana_fragment at h
  rw [hnil2] at h
  simp at h

/-- C6: a data row is detected as a fragment exactly when (at most three
non-empty cells and some 1-3 character katakana-only token) or (at most
four non-empty cells and such a token together with a year-like or
model-code-like token); and a detected fragment row, when a previously
retained row exists, is merged column-wise into that row by `normStep`
instead of being appended, leaving the retained-row count unchanged. -/
theorem C6_fragment_detection_and_merge :
    (∀ row : List String,
      is_fragment_row row =
        ((row.any _is_short_kana_fragment && _non_empty_count row ≤ 3) ||
         (row.any _is_short_kana_fragment &&
            (row.any cellYearLike || row.any cellModelLike) &&
            _non_empty_count row ≤ 4))) ∧
    (∀ (acc : List (List String)) (lastRow sub : List String),
      acc.getLast? = some lastRow → is_fragment_row sub = true →
        normStep acc sub = acc.dropLast ++ [merge_fragment_row lastRow sub] ∧
        (normStep acc sub).length = acc.length) := by
  constructor
  · intro row
    unfold is_fragment_row
    by_cases he : row.isEmpty
    · rw [if_pos he]
      have : row = [] := List.isEmpty_iff.mp he
      subst this
      simp
    · rw [if_neg he]
      by_cases hne : _non_empty_count row = 0
      · rw [if_pos hne]
        have hfrag : row.any _is_short_kana_fragment = false := by
          by_contra hcon
          have hany : row.any _is_short_kana_fragment = true := by
            revert hcon
            cases row.any _is_short_kana_fragment <;> simp
          obtain ⟨cell, hcell, hfragcell⟩ := List.any_eq_true.mp hany
          have : 0 < _non_empty_count row := by
            unfold _non_empty_count
            refine List.countP_pos.mpr ⟨cell, hcell, ?_⟩
            simpa using short_kana_cell_nonempty hfragcell
          omega
        rw [hfrag]
        simp
      · rw [if_neg hne]
        by_cases h3 : (row.any _is_short_kana_fragment &&
            decide (_non_empty_count row ≤ 3)) = true
        · rw [if_pos h3, h3]
          simp
        · rw [if_neg h3]
          rw [Bool.not_eq_true] at h3
          rw [h3]
          simp
  · intro acc lastRow sub hlast hfrag
    have hne0 : _non_empty_count sub ≠ 0 := by
      intro h0
      unfold is_fragment_row at hfrag
      by_cases he : sub.isEmpty
      · rw [if_pos he] at hfrag; cases hfrag
      · rw [if_neg he, if_pos h0] at hfrag; cases hfrag
    have hnotall : sub.all (fun c => pyStrip c = "") = false := by
      by_contra hcon
      have hall : sub.all (fun c => pyStrip c = "") = true := by
        revert hcon
        cases sub.all (fun c => pyStrip c = "") <;> simp
      have : _non_empty_count sub = 0 := by
        unfold _non_empty_count
        rw [List.countP_eq_zero]
        intro a ha
        have := List.all_eq_true.mp hall a ha
        simpa using this
      exact hne0 this
    obtain ⟨ys, hys⟩ := List.getLast?_eq_some_iff.mp hlast
    subst hys
    have hstep : normStep (ys ++ [lastRow]) sub =
        (ys ++ [lastRow]).dropLast ++ [merge_fragment_row lastRow sub] := by
      unfold normStep
      rw [hnotall]
      simp only [Bool.false_eq_true, if_false]
      rw [List.getLast?_concat, hfrag]
      simp
    refine ⟨hstep, ?_⟩
    rw [hstep]
    simp

/-- C6 witness: the fragment row `["", "タ", ""]` merges into the
previously retained row `["トヨ", "x"]`, rebuilding the maker. -/
theorem C6_fragment_witness :
    normStep [["トヨ", "x"]] ["タ", "", ""] = [["トヨタ", "x", ""]] ∧
    (normStep [["トヨ", "x"]] ["タ", "", ""]).length = 1 := by
  have h := C6_fragment_detection_and_merge.2 [["トヨ", "x"]] ["トヨ", "x"]
    ["タ", "", ""] (by decide) (by decide)
  refine ⟨?_, h.2⟩
  rw [h.1]
  decide

/-! ### C4: header selection (amended) -/

/-- Invariant of the header-selection fold: the running `(best, index)`
state dominates everything seen so far, and a non-zero best is the value
of the earliest maximal candidate. -/
theorem selBest_spec :
    ∀ (l seen : List (Nat × Nat)) (st : Nat × Nat),
      (∀ p ∈ seen, p.2 ≤ st.1) →
      (st.1 = 0 → st = (0, 0)) →
      (st.1 ≠ 0 → (st.2, st.1) ∈ seen ∧
        ∀ p ∈ seen, p.1 < st.2 → p.2 < st.1) →
      (∀ p ∈ seen, ∀ q ∈ l, p.1 < q.1) →
      List.Pairwise (fun a b => a.1 < b.1) l →
      (∀ p ∈ seen ++ l, p.2 ≤ (selBest l st).1) ∧
      ((selBest l st).1 = 0 → selBest l st = (0, 0)) ∧
      ((selBest l st).1 ≠ 0 →
        ((selBest l st).2, (selBest l st).1) ∈ seen ++ l ∧
        ∀ p ∈ seen ++ l, p.1 < (selBest l st).2 → p.2 < (selBest l st).1) := by
  intro l
  induction l with
  | nil =>
    intro seen st h1 h2 h3 _ _
    simp only [selBest, List.append_nil]
    exact ⟨h1, h2, h3⟩
  | cons q rest ih =>
    intro seen st h1 h2 h3 hord hpw
    have hpw2 := List.pairwise_cons.mp hpw
    by_cases hgt : q.2 > st.1
    · have hsel : selBest (q :: rest) st = selBest rest (q.2, q.1) := by
        simp [selBest, hgt]
      have hmain := ih (seen ++ [q]) (q.2, q.1)
        (by
          intro p hp
          rcases List.mem_append.mp hp with hp | hp
          · exact Nat.le_trans (h1 p hp) (Nat.le_of_lt hgt)
          · simp at hp
            subst hp
            exact Nat.le_refl _)
        (by intro h0; omega)
        (by
          intro _
          constructor
          · simp
          · intro p hp hlt
            rcases List.mem_append.mp hp with hp | hp
            · exact Nat.lt_of_le_of_lt (h1 p hp) hgt
            · simp at hp
              subst hp
              omega)
        (by
          intro p hp r hr
          rcases List.mem_append.mp hp with hp | hp
          · exact hord p hp r (List.mem_cons_of_mem _ hr)
          · simp at hp
            subst hp
            exact hpw2.1 r hr)
        hpw2.2
      rw [hsel]
      have happ : (seen ++ [q]) ++ rest = seen ++ q :: rest := by simp
      rw [happ] at hmain
      exact hmain
    · have hsel : selBest (q :: rest) st = selBest rest st := by
        simp [selBest, hgt]
      have hle : q.2 ≤ st.1 := by omega
      have hmain := ih (seen ++ [q]) st
        (by
          intro p hp
          rcases List.mem_append.mp hp with hp | hp
          · exact h1 p hp
          · simp at hp
            subst hp
            exact hle)
        h2
        (by
          intro hne
          obtain ⟨hmem, hearly⟩ := h3 hne
          refine ⟨List.mem_append_left _ hmem, ?_⟩
          intro p hp hlt
          rcases List.mem_append.mp hp with hp | hp
          · exact hearly p hp hlt
          · simp at hp
            have hq := hord (st.2, st.1) hmem q (List.mem_cons_self _ _)
            simp at hq
            rw [hp] at hlt
            omega)
        (by
          intro p hp r hr
          rcases List.mem_append.mp hp with hp | hp
          · exact hord p hp r (List.mem_cons_of_mem _ hr)
          · simp at hp
            subst hp
            exact hpw2.1 r hr)
        hpw2.2
      rw [hsel]
      have happ : (seen ++ [q]) ++ rest = seen ++ q :: rest := by simp
      rw [happ] at hmain
      exact hmain

theorem headerCandidates_pairwise (tbl : List (List String)) :
    List.Pairwise (fun a b : Nat × Nat => a.1 < b.1) (headerCandidates tbl) := by
  unfold headerCandidates
  exact List.Pairwise.map _ (fun a b h => h) (List.pairwise_lt_range _)

theorem headerSelect_spec (tbl : List (List String)) :
    (∀ p ∈ headerCandidates tbl, p.2 ≤ (headerSelect tbl).1) ∧
    ((headerSelect tbl).1 = 0 → headerSelect tbl = (0, 0)) ∧
    ((headerSelect tbl).1 ≠ 0 →
      ((headerSelect tbl).2, (headerSelect tbl).1) ∈ headerCandidates tbl ∧
      ∀ p ∈ headerCandidates tbl, p.1 < (headerSelect tbl).2 →
        p.2 < (headerSelect tbl).1) := by
  have h := selBest_spec (headerCandidates tbl) [] (0, 0)
    (by intro p hp; cases hp)
    (fun _ => rfl)
    (by intro h; cases h rfl)
    (by intro p hp; cases hp)
    (headerCandidates_pairwise tbl)
  simpa [headerSelect] using h

theorem mem_headerCandidates {tbl : List (List String)} {j : Nat}
    (hj : j < min 3 tbl.length) :
    (j, mappingSize (tableStrippedRow tbl j)) ∈ headerCandidates tbl := by
  unfold headerCandidates
  exact List.mem_map.mpr ⟨j, List.mem_range.mpr hj, rfl⟩

/-- C4 (amended): the header row of a candidate table is chosen among at
most the first three rows as the one with the greatest count of matched
columns — `len(mapping)`, which counts one per matched cell and so may
count the same canonical field several times, rather than the count of
distinct matched fields — with ties resolved to the earliest row, and a
table whose first rows all match nothing contributes no records. -/
theorem C4_header_selection (tbl : List (List String)) :
    (∀ j, j < min 3 tbl.length →
      mappingSize (tableStrippedRow tbl j) ≤ (headerSelect tbl).1) ∧
    ((headerSelect tbl).1 ≠ 0 →
      (headerSelect tbl).2 < min 3 tbl.length ∧
      mappingSize (tableStrippedRow tbl (headerSelect tbl).2) =
        (headerSelect tbl).1 ∧
      (∀ j, j < (headerSelect tbl).2 →
        mappingSize (tableStrippedRow tbl j) < (headerSelect tbl).1)) ∧
    ((∀ j, j < min 3 tbl.length → mappingSize (tableStrippedRow tbl j) = 0) →
      processTable tbl = []) := by
  obtain ⟨hbound, hzero, hmax⟩ := headerSelect_spec tbl
  refine ⟨?_, ?_, ?_⟩
  · intro j hj
    exact hbound _ (mem_headerCandidates hj)
  · intro hne
    obtain ⟨hmem, hearly⟩ := hmax hne
    obtain ⟨i, hi, hpair⟩ := List.mem_map.mp hmem
    have hi2 := List.mem_range.mp hi
    have hidx : i = (headerSelect tbl).2 := congrArg Prod.fst hpair
    have hsz : mappingSize (tableStrippedRow tbl i) = (headerSelect tbl).1 :=
      congrArg Prod.snd hpair
    subst hidx
    refine ⟨hi2, hsz, ?_⟩
    intro j hj
    exact hearly _ (mem_headerCandidates (by omega)) hj
  · intro hall
    have hbc : (headerSelect tbl).1 = 0 := by
      by_contra hne
      obtain ⟨hmem, _⟩ := hmax hne
      obtain ⟨i, hi, hpair⟩ := List.mem_map.mp hmem
      have hi2 := List.mem_range.mp hi
      have hsz : mappingSize (tableStrippedRow tbl i) = (headerSelect tbl).1 :=
        congrArg Prod.snd hpair
      rw [hall i hi2] at hsz
      exact hne hsz.symm
    unfold processTable
    by_cases hlen : tbl.length < 2
    · rw [if_pos hlen]
    · rw [if_neg hlen, if_pos hbc]

/-- C4 witness: on the end-to-end example table the selected header is
row 0 with all six columns matched. -/
theorem C4_header_selection_witness :
    mappingSize (tableStrippedRow exampleTable 0) ≤ (headerSelect exampleTable).1 ∧
    (headerSelect exampleTable).2 < min 3 exampleTable.length ∧
    mappingSize (tableStrippedRow exampleTable (headerSelect exampleTable).2) =
      (headerSelect exampleTable).1 := by
  refine ⟨(C4_header_selection exampleTable).1 0 (by decide), ?_, ?_⟩
  · exact ((C4_header_selection exampleTable).2.1 (by decide)).1
  · exact ((C4_header_selection exampleTable).2.1 (by decide)).2.1

/-! ### C10: the closed maker vocabulary -/

theorem mem_KNOWN_of_mem_norm {kv : String × String}
    (h : kv ∈ _KNOWN_MAKERS_NORM) : kv.2 ∈ KNOWN_MAKERS := by
  unfold _KNOWN_MAKERS_NORM at h
  obtain ⟨mk, hmk, hkv⟩ := List.mem_map.mp h
  rw [← hkv]
  exact hmk

theorem fragmentPairScan_mem :
    ∀ (cells : List String) (mk : String),
      fragmentPairScan cells = some mk → mk ∈ KNOWN_MAKERS := by
  intro cells
  induction cells with
  | nil => intro mk h; cases h
  | cons a tail ih =>
    intro mk h
    cases tail with
    | nil => cases h
    | cons b rest =>
      unfold fragmentPairScan at h
      cases hf : MAKER_FRAGMENT_RULES.findSome? (fun rule =>
          if fragmentRuleHit (_lead2_norm a) (_lead2_norm b) rule then some rule.2
          else none) with
      | some m =>
        rw [hf] at h
        cases h
        obtain ⟨rule, hrule, hr⟩ := List.exists_of_findSome?_eq_some hf
        have hfact : ∀ r ∈ MAKER_FRAGMENT_RULES, r.2 ∈ KNOWN_MAKERS := by decide
        by_cases hc : fragmentRuleHit (_lead2_norm a) (_lead2_norm b) rule = true
        · rw [if_pos hc] at hr
          cases hr
          exact hfact rule hrule
        · rw [if_neg hc] at hr
          cases hr
      | none =>
        rw [hf] at h
        exact ih mk h

theorem _complete_maker_prefix_mem {t mk : String}
    (h : _complete_maker_prefix t = some mk) : mk ∈ KNOWN_MAKERS := by
  unfold _complete_maker_prefix at h
  cases hc : (_KNOWN_MAKERS_NORM.filter
      (fun kv => strStartsWith kv.1 t)).map Prod.snd with
  | nil => rw [hc] at h; cases h
  | cons x tail =>
    cases tail with
    | nil =>
      rw [hc] at h
      cases h
      have hx : mk ∈ (_KNOWN_MAKERS_NORM.filter
          (fun kv => strStartsWith kv.1 t)).map Prod.snd := by
        rw [hc]; exact List.mem_singleton.mpr rfl
      obtain ⟨kv, hkv, hsnd⟩ := List.mem_map.mp hx
      rw [← hsnd]
      exact mem_KNOWN_of_mem_norm (List.mem_of_mem_filter hkv)
    | cons y ys => rw [hc] at h; cases h

theorem makerContainScan_mem {norm mk : String} {rest : Option String}
    (h : makerContainScan norm = some (mk, rest)) : mk ∈ KNOWN_MAKERS := by
  unfold makerContainScan at h
  obtain ⟨kv, hkv, hf⟩ := List.exists_of_findSome?_eq_some h
  by_cases hc : (strContains norm kv.1 ||
      strContains (_devoice_katakana norm) kv.1) = true
  · rw [if_pos hc] at hf
    have : kv.2 = mk := congrArg Prod.fst (Option.some.inj hf)
    rw [← this]
    exact mem_KNOWN_of_mem_norm hkv
  · rw [if_neg hc] at hf
    cases hf

theorem windowScan_mem {tokens : List Char} {mk : String}
    (h : windowScan tokens = some mk) : mk ∈ KNOWN_MAKERS := by
  unfold windowScan at h
  obtain ⟨n, _, hn⟩ := List.exists_of_findSome?_eq_some h
  obtain ⟨i, _, hi⟩ := List.exists_of_findSome?_eq_some hn
  cases hc : _complete_maker_prefix (String.mk ((tokens.drop i).take n)) with
  | some m =>
    rw [hc] at hi
    cases hi
    exact _complete_maker_prefix_mem hc
  | none =>
    rw [hc] at hi
    exact _complete_maker_prefix_mem hi

theorem salvage_row_mem (row : List String) (mk : String) (rest : Option String)
    (h : salvage_maker_from_row_cells row = (some mk, rest)) :
    mk ∈ KNOWN_MAKERS := by
  unfold salvage_maker_from_row_cells at h
  split at h
  · simp at h
  · split at h
    · rename_i m heq
      have : some m = some mk := congrArg Prod.fst h
      cases this
      exact fragmentPairScan_mem _ _ heq
    · split at h
      · rename_i m r heq
        have : some m = some mk := congrArg Prod.fst h
        cases this
        exact makerContainScan_mem heq
      · split at h
        · rename_i m heq
          have : some m = some mk := congrArg Prod.fst h
          cases this
          exact fragmentPairScan_mem _ _ heq
        · split at h
          · rename_i m r heq
            have : some m = some mk := congrArg Prod.fst h
            cases this
            exact makerContainScan_mem heq
          · split at h
            · rename_i m heq
              have : some m = some mk := congrArg Prod.fst h
              cases this
              exact windowScan_mem heq
            · simp at h

theorem carNamePrefixScan_mem {name_norm mk rest : String}
    (h : carNamePrefixScan name_norm = some (mk, rest)) : mk ∈ KNOWN_MAKERS := by
  unfold carNamePrefixScan at h
  obtain ⟨kv, hkv, hf⟩ := List.exists_of_findSome?_eq_some h
  split at hf
  · have : kv.2 = mk := congrArg Prod.fst (Option.some.inj hf)
    rw [← this]
    exact mem_KNOWN_of_mem_norm hkv
  · cases hf

theorem carname_salvage_maker (v : Vehicle) :
    ( salvage_maker_from_car_name_prefix v).maker = v.maker ∨
    ∃ mk ∈ KNOWN_MAKERS,
      ( salvage_maker_from_car_name_prefix v).maker = some mk := by
  unfold salvage_maker_from_car_name_prefix
  split
  · left; rfl
  · split
    · rename_i mk rest heq
      right
      refine ⟨mk, carNamePrefixScan_mem heq, ?_⟩
      split
      · rfl
      · rfl
    · left; rfl

theorem textFallbackMaker_mem {rec mk : String}
    (h : textFallbackMaker rec = some mk) : mk ∈ KNOWN_MAKERS := by
  unfold textFallbackMaker at h
  obtain ⟨kv, hkv, hf⟩ := List.exists_of_findSome?_eq_some h
  split at hf
  · cases hf
    exact mem_KNOWN_of_mem_norm hkv
  · cases hf

/-- C10: every maker the salvage machinery can produce — the five-strategy
row-cell resolver, the car-name-prefix split, and the text-fallback maker
scan — is an element of the fixed `KNOWN_MAKERS` list. -/
theorem C10_closed_maker_vocabulary :
    (∀ (row : List String) (mk : String) (rest : Option String),
      salvage_maker_from_row_cells row = (some mk, rest) → mk ∈ KNOWN_MAKERS) ∧
    (∀ v : Vehicle, ( salvage_maker_from_car_name_prefix v).maker = v.maker ∨
      ∃ mk ∈ KNOWN_MAKERS,
        ( salvage_maker_from_car_name_prefix v).maker = some mk) ∧
    (∀ rec mk : String, textFallbackMaker rec = some mk → mk ∈ KNOWN_MAKERS) :=
  ⟨salvage_row_mem, carname_salvage_maker, fun _ _ h => textFallbackMaker_mem h⟩

/-- C10 witness: the row-cell salvage on a concrete row produces
`"トヨタ"`, which the theorem places in `KNOWN_MAKERS`. -/
theorem C10_closed_maker_vocabulary_witness : "トヨタ" ∈ KNOWN_MAKERS :=
  C10_closed_maker_vocabulary.1 ["12345 トヨタ アクア"] "トヨタ" (some "アクア")
    (by decide)

/-! ### C1: the minimum-field invariant -/

theorem hasMinKeys_finalize {row : List String} {v w : Vehicle}
    (h : finalizeVehicle row v = some w) : hasMinKeys w = true := by
  unfold finalizeVehicle at h
  split at h
  · rename_i hmin
    cases h
    exact hmin
  · cases h

theorem assembleRow_hasMinKeys {cm : Nat → Option FieldKey} {row : List String}
    {v : Vehicle} (h : assembleRow cm row = some v) : hasMinKeys v = true := by
  unfold assembleRow at h
  exact hasMinKeys_finalize h

theorem processTable_hasMinKeys {tbl : List (List String)} {v : Vehicle}
    (h : v ∈ processTable tbl) : hasMinKeys v = true := by
  unfold processTable at h
  split at h
  · cases h
  · split at h
    · cases h
    · obtain ⟨row, _, heq⟩ := List.mem_filterMap.mp h
      exact assembleRow_hasMinKeys heq

theorem tableVehicles_hasMinKeys {pages : List Page} {v : Vehicle}
    (h : v ∈ tableVehicles pages) : hasMinKeys v = true := by
  obtain ⟨p, _, hp⟩ := List.mem_flatMap.mp h
  obtain ⟨tbl, _, ht⟩ := List.mem_flatMap.mp hp
  exact processTable_hasMinKeys ht

theorem fallbackVehicles_hasMinKeys {pages : List Page} {v : Vehicle}
    (h : v ∈ fallbackVehicles pages) : hasMinKeys v = true := by
  unfold fallbackVehicles at h
  obtain ⟨rec, _, heq⟩ := List.mem_filterMap.mp h
  cases hm : textFallbackMaker rec with
  | none => rw [hm] at heq; cases heq
  | some mk =>
    rw [hm] at heq
    cases heq
    have hmem := textFallbackMaker_mem hm
    have hfact : ∀ m ∈ KNOWN_MAKERS, m ≠ "" := by decide
    simp [hasMinKeys, truthyStr]
    exact hfact mk hmem

/-- The vehicles component of the parse result, written as the source's
conditional between the table path and the appended fallback. -/
theorem parse_vehicles_eq (pages : List Page) (fname : String) :
    (parse_auction_sheet pages fname).vehicles =
      if !anyTableParsed pages && (tableVehicles pages).isEmpty then
        tableVehicles pages ++ fallbackVehicles pages
      else tableVehicles pages := rfl

/-- C1: every `VehicleRecord` in the parse result satisfies the
minimum-field invariant — at least one of `auction_no`, `car_name`,
`maker` is present and non-empty — on the table path and the fallback
path alike; a row failing the rule after coercion and salvage never
reaches the output. -/
theorem C1_min_field_invariant (pages : List Page) (fname : String) :
    ∀ v ∈ (parse_auction_sheet pages fname).vehicles, hasMinKeys v = true := by
  intro v hv
  rw [parse_vehicles_eq] at hv
  split at hv
  · rcases List.mem_append.mp hv with hv | hv
    · exact tableVehicles_hasMinKeys hv
    · exact fallbackVehicles_hasMinKeys hv
  · exact tableVehicles_hasMinKeys hv

/-- C1 witness: the vehicle assembled from the end-to-end example
document satisfies the minimum-field rule. -/
theorem C1_min_field_invariant_witness : hasMinKeys exampleVehicle = true :=
  C1_min_field_invariant [examplePage] "f.pdf" exampleVehicle (by decide)

/-! ### C5: the fallback condition -/

/-- C5 counterexample: a document whose only page yields a candidate
table without a usable header — so the table path contributes nothing —
still suppresses the text fallback, because the condition is `not
any_table_parsed and not vehicles`: the parse returns no vehicles even
though the fallback would have produced one. -/
theorem C5_fallback_counterexample :
    anyTableParsed [unusableHeaderPage] = true ∧
    tableVehicles [unusableHeaderPage] = [] ∧
    (headerSelect [["a", "b"], ["c", "d"]]).1 = 0 ∧
    (parse_auction_sheet [unusableHeaderPage] "f.pdf").vehicles = [] ∧
    fallbackVehicles [unusableHeaderPage] ≠ [] := by
  refine ⟨by decide, by decide, by decide, by decide, by decide⟩

/-- C5 (amended): the text fallback supplies the vehicles exactly when no
extraction strategy produced a table on any page AND the table path
produced no vehicles (a parsed table with an unusable header suppresses
the fallback); and when the fallback also yields nothing the result is a
metadata-only record with an empty vehicle sequence, not an error. -/
theorem C5_fallback_condition (pages : List Page) (fname : String) :
    (anyTableParsed pages = false ∧ tableVehicles pages = [] →
      (parse_auction_sheet pages fname).vehicles = fallbackVehicles pages) ∧
    (anyTableParsed pages = true →
      (parse_auction_sheet pages fname).vehicles = tableVehicles pages) ∧
    (tableVehicles pages ≠ [] →
      (parse_auction_sheet pages fname).vehicles = tableVehicles pages) ∧
    (anyTableParsed pages = false → tableVehicles pages = [] →
      fallbackVehicles pages = [] →
      (parse_auction_sheet pages fname).vehicles = [] ∧
      (parse_auction_sheet pages fname).file_name = fname ∧
      (parse_auction_sheet pages fname).auction_date =
        parse_auction_date (joinedText pages)) := by
  refine ⟨?_, ?_, ?_, ?_⟩
  · intro ⟨h1, h2⟩
    rw [parse_vehicles_eq, if_pos (by simp [h1, h2]), h2]
    rfl
  · intro h1
    rw [parse_vehicles_eq, if_neg (by simp [h1])]
  · intro h2
    rw [parse_vehicles_eq]
    split
    · rename_i hc
      have : (tableVehicles pages).isEmpty = true := by
        revert hc
        cases (tableVehicles pages).isEmpty <;> simp
      exact absurd (List.isEmpty_iff.mp this) h2
    · rfl
  · intro h1 h2 h3
    refine ⟨?_, rfl, rfl⟩
    rw [parse_vehicles_eq, if_pos (by simp [h1, h2]), h2, h3]
    rfl

/-- C5 witness: a document with no tables and no usable text yields the
metadata-only result, and a document with no tables but fallback-usable
text takes its vehicles from the fallback. -/
theorem C5_fallback_condition_witness :
    (parse_auction_sheet [emptyPage] "report.pdf").vehicles = [] ∧
    (parse_auction_sheet [noTablePage] "f.pdf").vehicles =
      fallbackVehicles [noTablePage] := by
  refine ⟨((C5_fallback_condition [emptyPage] "report.pdf").2.2.2
    (by decide) (by decide) (by decide)).1, ?_⟩
  exact (C5_fallback_condition [noTablePage] "f.pdf").1 ⟨by decide, by decide⟩

/-- C9 witness: the idempotence theorem applied at a concrete mixed-width
string. -/
theorem C9_normalize_width_idempotent_witness :
    z2h (z2h "　１２３ km　") = z2h "　１２３ km　" :=
  C9_normalize_width_idempotent "　１２３ km　"

end AuctionParser
